import Mathlib

/-!
Verification development for the backteststoxx email-to-trade-signal pipeline.

The Go sources (`main.go`, `parser.go`, `database.go`) are shallowly embedded
below.  Text is modelled as `List Char` (Go `regexp` operates on runes),
prices as `ℚ` (Go `float64`; every concrete value used here is exactly
representable in binary floating point, so the models agree on them),
epoch-millisecond dates as `Int` (Go `int64`), and SQL row stores as Lean
lists of row structures.  The Go regular expressions used by the extraction
engine are embedded as explicit pattern syntax trees interpreted by a
prioritized backtracking matcher that implements Go's leftmost-first
`FindStringSubmatch` semantics.
-/

/-- Character classes of the Go regular expressions (`regexp` uses ASCII
classes for `\s`, `\d`, `\w`). -/
def isSpaceGo (c : Char) : Bool :=
  c = ' ' || c = '\t' || c = '\n' || c = '\x0c' || c = '\r'

/-- Go `\d`. -/
def isDigitGo (c : Char) : Bool := 48 ≤ c.toNat && c.toNat ≤ 57

/-- The class `[A-Z]` used by the ticker patterns. -/
def isUpperAZ (c : Char) : Bool := 65 ≤ c.toNat && c.toNat ≤ 90

/-- Go word characters (`\w` = `[0-9A-Za-z_]`), used by `\b`. -/
def isWordGo (c : Char) : Bool :=
  isDigitGo c || isUpperAZ c || (97 ≤ c.toNat && c.toNat ≤ 122) || c = '_'

/-- The class `.` (any character except newline). -/
def isDotGo (c : Char) : Bool := c ≠ '\n'

/-- The class `[\r\n\t]` of the whitespace pre-cleaning pass. -/
def isCRLFTab (c : Char) : Bool := c = '\r' || c = '\n' || c = '\t'

/-- The class `[:=]` of the explicit-ticker proximity pattern. -/
def isColonEq (c : Char) : Bool := c = ':' || c = '='

/-- The class `[-:]` of the "TICKER - price" proximity pattern. -/
def isDashColon (c : Char) : Bool := c = '-' || c = ':'

/-- The class `[-\s]` inside `stop[-\s]?loss` / `take[-\s]?profit`. -/
def isDashSpace (c : Char) : Bool := c = '-' || isSpaceGo c

/-- Pattern syntax trees for the concrete Go regular expressions of the
extraction engine.  Stars and repetitions only ever range over a single
character class in those patterns, so they are primitives here. -/
inductive RE where
  /-- a literal character sequence -/
  | lit : List Char → RE
  /-- a single character of a class -/
  | cls : (Char → Bool) → RE
  /-- concatenation -/
  | cat : RE → RE → RE
  /-- prioritized alternation (left branch preferred) -/
  | alt : RE → RE → RE
  /-- greedy `?` -/
  | opt : RE → RE
  /-- lazy `*?` over a character class -/
  | lazyStar : (Char → Bool) → RE
  /-- greedy `*` over a character class -/
  | greedyStar : (Char → Bool) → RE
  /-- greedy `{lo,hi}` over a character class -/
  | rep : (Char → Bool) → Nat → Nat → RE
  /-- greedy `+` over a character class -/
  | plus : (Char → Bool) → RE
  /-- the (single) capturing group -/
  | grp : RE → RE
  /-- word boundary `\b` -/
  | wordB : RE

/-- Sequence a nonempty list of pattern pieces. -/
def reSeq : List RE → RE
  | [] => .lit []
  | [r] => r
  | r :: rs => .cat r (reSeq rs)

/-- Literal from a string. -/
def reLit (s : String) : RE := .lit s.data

/-- Continuations of the matcher receive the character preceding the current
position (for `\b`), the remaining input, and the capture recorded so far. -/
abbrev MatchK (α : Type) := Option Char → List Char → Option (List Char) → Option α

/-- Lazy star over a character class: try the continuation before consuming. -/
def lazyStarM (p : Char → Bool) (prev : Option Char) (s : List Char)
    (cap : Option (List Char)) (k : MatchK α) : Option α :=
  match k prev s cap with
  | some r => some r
  | none =>
    match s with
    | [] => none
    | c :: rest => if p c then lazyStarM p (some c) rest cap k else none

/-- Greedy star over a character class: consume as much as possible first. -/
def greedyStarM (p : Char → Bool) (prev : Option Char) (s : List Char)
    (cap : Option (List Char)) (k : MatchK α) : Option α :=
  match s with
  | [] => k prev [] cap
  | c :: rest =>
    if p c then
      match greedyStarM p (some c) rest cap k with
      | some r => some r
      | none => k prev s cap
    else k prev s cap

/-- Greedy bounded repetition: up to `hi` further characters, longest first. -/
def greedyRepUpto (p : Char → Bool) (hi : Nat) (prev : Option Char)
    (s : List Char) (cap : Option (List Char)) (k : MatchK α) : Option α :=
  match hi, s with
  | 0, _ => k prev s cap
  | _, [] => k prev s cap
  | h + 1, c :: rest =>
    if p c then
      match greedyRepUpto p h (some c) rest cap k with
      | some r => some r
      | none => k prev s cap
    else k prev s cap

/-- Mandatory consumption of exactly `lo` characters of a class. -/
def consumeExact (p : Char → Bool) (lo : Nat) (prev : Option Char)
    (s : List Char) (cap : Option (List Char)) (k : MatchK α) : Option α :=
  match lo with
  | 0 => k prev s cap
  | l + 1 =>
    match s with
    | [] => none
    | c :: rest => if p c then consumeExact p l (some c) rest cap k else none

/-- The prioritized backtracking matcher: explores alternatives in exactly the
order a leftmost-first (Perl/Go `FindStringSubmatch`) engine does, and
returns the first full match's data.  `prev` is the character immediately
before the current position (needed for `\b`). -/
def mmatch : RE → Option Char → List Char → Option (List Char) → MatchK α → Option α
  | .lit l, prev, s, cap, k =>
    if l.isPrefixOf s then
      k (match l.getLast? with | some c => some c | none => prev) (s.drop l.length) cap
    else none
  | .cls p, prev, s, cap, k =>
    match s with
    | [] => none
    | c :: rest => if p c then k (some c) rest cap else (fun _ => none) prev
  | .cat a b, prev, s, cap, k =>
    mmatch a prev s cap (fun prev2 s2 cap2 => mmatch b prev2 s2 cap2 k)
  | .alt a b, prev, s, cap, k =>
    match mmatch a prev s cap k with
    | some r => some r
    | none => mmatch b prev s cap k
  | .opt a, prev, s, cap, k =>
    match mmatch a prev s cap k with
    | some r => some r
    | none => k prev s cap
  | .lazyStar p, prev, s, cap, k => lazyStarM p prev s cap k
  | .greedyStar p, prev, s, cap, k => greedyStarM p prev s cap k
  | .rep p lo hi, prev, s, cap, k =>
    consumeExact p lo prev s cap (fun prev2 s2 cap2 =>
      greedyRepUpto p (hi - lo) prev2 s2 cap2 k)
  | .plus p, prev, s, cap, k =>
    consumeExact p 1 prev s cap (fun prev2 s2 cap2 =>
      greedyStarM p prev2 s2 cap2 k)
  | .grp a, prev, s, cap, k =>
    mmatch a prev s cap (fun prev2 s2 _ =>
      k prev2 s2 (some (s.take (s.length - s2.length))))
  | .wordB, prev, s, cap, k =>
    let before := match prev with | some c => isWordGo c | none => false
    let after := match s with | c :: _ => isWordGo c | [] => false
    if before ≠ after then k prev s cap else none

/-- Attempt a match anchored at the current position, returning the contents
of the capturing group on success. -/
def matchHere (re : RE) (prev : Option Char) (s : List Char) :
    Option (List Char) :=
  mmatch re prev s none (fun _ _ cap => some (cap.getD []))

/-- Go `FindStringSubmatch` restricted to the single capturing group: scan
start positions left to right, and at the leftmost position admitting a
match return the group captured by the highest-priority match there. -/
def findSubmatch (re : RE) (prev : Option Char) (s : List Char) :
    Option (List Char) :=
  match matchHere re prev s with
  | some cap => some cap
  | none =>
    match s with
    | [] => none
    | c :: rest => findSubmatch re (some c) rest

/-- Top-level search over a whole subject string. -/
def goFind (re : RE) (s : List Char) : Option (List Char) :=
  findSubmatch re none s

/-!  The concrete patterns of the extraction engine, transcribed from
`parser.go` (`extractTicker`, `extractBuyPrice`, `extractStopPrice`,
`extractTargetPrice`); the same literals are inlined in `main.go`'s
`extractTradingSignalWithText`. -/

/-- Pattern `\(\s*NASDAQ:\s*([A-Z]{2,5})\s*\)` (and the NYSE variant). -/
def exchangeParen (name : String) : RE :=
  reSeq [reLit "(", .greedyStar isSpaceGo, reLit (name ++ ":"),
    .greedyStar isSpaceGo, .grp (.rep isUpperAZ 2 5),
    .greedyStar isSpaceGo, reLit ")"]

/-- Pattern `NASDAQ:\s*([A-Z]{2,5})\b` (and the NYSE variant). -/
def exchangeBare (name : String) : RE :=
  reSeq [reLit (name ++ ":"), .greedyStar isSpaceGo,
    .grp (.rep isUpperAZ 2 5), .wordB]

/-- The tier-1 exchange pattern list, in source order. -/
def exchangePatterns : List RE :=
  [exchangeParen "NASDAQ", exchangeParen "NYSE",
   exchangeBare "NASDAQ", exchangeBare "NYSE"]

/-- Pattern `(?:buy|BUY)` -/
def reBuyWord : RE := .alt (reLit "buy") (reLit "BUY")

/-- The tier-2 proximity pattern list, in source order:
`\b([A-Z]{2,5})\s*(?:buy|BUY)`, `(?:buy|BUY)\s*([A-Z]{2,5})\b`,
`(?:symbol|ticker|stock)[:=]?\s*([A-Z]{2,5})\b`,
`\b([A-Z]{2,5})\s+at\s+\$?\d+`, `\b([A-Z]{2,5})\s*[-:]\s*\$?\d+`. -/
def proximityPatterns : List RE :=
  [reSeq [.wordB, .grp (.rep isUpperAZ 2 5), .greedyStar isSpaceGo, reBuyWord],
   reSeq [reBuyWord, .greedyStar isSpaceGo, .grp (.rep isUpperAZ 2 5), .wordB],
   reSeq [.alt (reLit "symbol") (.alt (reLit "ticker") (reLit "stock")),
     .opt (.cls isColonEq), .greedyStar isSpaceGo,
     .grp (.rep isUpperAZ 2 5), .wordB],
   reSeq [.wordB, .grp (.rep isUpperAZ 2 5), .plus isSpaceGo, reLit "at",
     .plus isSpaceGo, .opt (reLit "$"), .plus isDigitGo],
   reSeq [.wordB, .grp (.rep isUpperAZ 2 5), .greedyStar isSpaceGo,
     .cls isDashColon, .greedyStar isSpaceGo, .opt (reLit "$"),
     .plus isDigitGo]]

/-- The capture `(\d+\.?\d*)` common to all nine price patterns. -/
def reNumber : RE :=
  .grp (reSeq [.plus isDigitGo, .opt (reLit "."), .greedyStar isDigitGo])

/-- Pattern `(?:at|@|price|:)?\s*\$?` followed by the number capture: the common
tail of the keyword-anchored price patterns. -/
def rePriceTail : RE :=
  reSeq [.opt (.alt (reLit "at") (.alt (reLit "@")
      (.alt (reLit "price") (reLit ":")))),
    .greedyStar isSpaceGo, .opt (reLit "$"), reNumber]

/-- Pattern `kw\s+(?:at\s+)?\$?(\d+\.?\d*)`: the third pattern of each price list. -/
def reSimplePrice (kw : String) : RE :=
  reSeq [reLit kw, .plus isSpaceGo,
    .opt (reSeq [reLit "at", .plus isSpaceGo]), .opt (reLit "$"), reNumber]

/-- The buy-price pattern list, in source order:
`buy.*?(?:at|@|price|:)?\s*\$?(\d+\.?\d*)`,
`entry.*?(?:at|@|price|:)?\s*\$?(\d+\.?\d*)`,
`buy\s+(?:at\s+)?\$?(\d+\.?\d*)`. -/
def buyPatterns : List RE :=
  [reSeq [reLit "buy", .lazyStar isDotGo, rePriceTail],
   reSeq [reLit "entry", .lazyStar isDotGo, rePriceTail],
   reSimplePrice "buy"]

/-- The stop-price pattern list, in source order. -/
def stopPatterns : List RE :=
  [reSeq [.alt (reLit "stop")
      (reSeq [reLit "stop", .opt (.cls isDashSpace), reLit "loss"]),
     .lazyStar isDotGo, rePriceTail],
   reSeq [.alt (reLit "sl") (reLit "s.l."), .lazyStar isDotGo, rePriceTail],
   reSimplePrice "stop"]

/-- The target-price pattern list, in source order. -/
def targetPatterns : List RE :=
  [reSeq [.alt (reLit "target")
      (reSeq [reLit "take", .opt (.cls isDashSpace), reLit "profit"]),
     .lazyStar isDotGo, rePriceTail],
   reSeq [.alt (reLit "tp") (reLit "t.p."), .lazyStar isDotGo, rePriceTail],
   reSimplePrice "target"]

/-!  Text utilities shared by both extraction variants. -/

/-- Go `strings.ToUpper` restricted to ASCII (all captures are `[A-Z]`). -/
def toUpperList (s : List Char) : List Char := s.map Char.toUpper

/-- Go `strings.ToLower` (ASCII; the subject texts are ASCII apart from
punctuation, which both sides leave unchanged). -/
def toLowerList (s : List Char) : List Char := s.map Char.toLower

/-- Worker for `collapseRuns`: `inRun` records whether the previous
character belonged to the class (so only the first character of a maximal
run emits the replacement space). -/
def collapseRunsAux (p : Char → Bool) (inRun : Bool) : List Char → List Char
  | [] => []
  | c :: rest =>
    if p c then
      if inRun then collapseRunsAux p true rest
      else ' ' :: collapseRunsAux p true rest
    else c :: collapseRunsAux p false rest

/-- Model of `regexp.MustCompile(class+).ReplaceAllString(s, " ")`: every maximal run
of characters of the class becomes a single space. -/
def collapseRuns (p : Char → Bool) (s : List Char) : List Char :=
  collapseRunsAux p false s

/-- Go `strings.TrimSpace` (ASCII whitespace). -/
def trimSpaceList (s : List Char) : List Char :=
  ((s.dropWhile isSpaceGo).reverse.dropWhile isSpaceGo).reverse

/-- Locate the first `>` and return what follows it, if any. -/
def afterGt : List Char → Option (List Char)
  | [] => none
  | c :: rest => if c = '>' then some rest else afterGt rest

theorem afterGt_length_lt (l r : List Char) (h : afterGt l = some r) :
    r.length < l.length := by
  induction l generalizing r with
  | nil => simp [afterGt] at h
  | cons d ds ih =>
    by_cases hd : d = '>'
    · simp only [afterGt, if_pos hd, Option.some.injEq] at h
      subst h
      simp
    · simp only [afterGt, if_neg hd] at h
      exact Nat.lt_succ_of_lt (ih r h)

/-- Model of `regexp.MustCompile("<[^>]*>").ReplaceAllString(s, " ")` as used by
`main.go`: each `<`…`>` tag becomes one space; an unterminated `<` is kept. -/
def stripTags : List Char → List Char
  | [] => []
  | c :: rest =>
    if c = '<' then
      match h : afterGt rest with
      | some rest2 => ' ' :: stripTags rest2
      | none => '<' :: stripTags rest
    else c :: stripTags rest
termination_by l => l.length
decreasing_by
  · exact Nat.lt_succ_of_lt (afterGt_length_lt rest rest2 h)
  · simp
  · simp


/-!  Parsing of price captures.  The captures all match `\d+\.?\d*`;
`strconv.ParseFloat` on such a string yields its decimal value (modelled
exactly in `ℚ`; every value appearing in the claims is float-exact). -/

/-- Digits to a natural number, most significant first. -/
def digitsToNat (ds : List Char) : Nat :=
  ds.foldl (fun acc c => acc * 10 + (c.toNat - 48)) 0

/-- Model of `strconv.ParseFloat` on captures of shape `\d+\.?\d*`:
integer part, optional dot, fractional part.  Returns `none` on any other
shape (the `err != nil` branch of the source). -/
def parsePrice (s : List Char) : Option ℚ :=
  let intPart := s.takeWhile isDigitGo
  let rest := s.dropWhile isDigitGo
  if intPart = [] then none
  else
    match rest with
    | [] => some (digitsToNat intPart)
    | '.' :: frac =>
      if frac.all isDigitGo then
        some ((digitsToNat intPart : ℚ) +
          (digitsToNat frac : ℚ) / (10 : ℚ) ^ frac.length)
      else none
    | _ => none

/-!  The extraction engine, transcribed from `parser.go` (the same logic is
inlined in `main.go:extractTradingSignalWithText`). -/

/-- The exclusion set of `extractTicker`. -/
def exclusionWords : List (List Char) :=
  ["BUY", "SELL", "STOP", "TARGET", "PRICE", "ENTRY", "EXIT", "LOSS",
   "PROFIT", "TAKE", "AT", "TO", "FROM", "AND", "OR", "THE"].map String.data

/-- The acceptance filter applied to every regex capture in `extractTicker`:
not an exclusion word and of length 2–5 (`len` is in bytes in Go; captures
are ASCII uppercase so the lengths agree). -/
def tickerOk (t : List Char) : Bool :=
  !(exclusionWords.contains t) && decide (2 ≤ t.length) && decide (t.length ≤ 5)

/-- One tier of `extractTicker`: try each pattern in order on one subject;
on a match, upcase and filter; an accepted capture is returned, a rejected
one falls through to the next pattern (`FindStringSubmatch` only ever
reports the first match of a pattern). -/
def tryTickerPatterns (pats : List RE) (s : List Char) : Option (List Char) :=
  match pats with
  | [] => none
  | p :: rest =>
    match goFind p s with
    | some cap =>
      let t := toUpperList cap
      if tickerOk t then some t else tryTickerPatterns rest s
    | none => tryTickerPatterns rest s

/-- The tier-2 loop of `extractTicker`: each proximity pattern is tried on
the original-case text and then on the lowercased text before moving on. -/
def tryProximityTickers (plainText htmlLower : List Char) : Option (List Char) :=
  go proximityPatterns
where
  go : List RE → Option (List Char)
  | [] => none
  | p :: rest =>
    match goFind p plainText with
    | some cap =>
      let t := toUpperList cap
      if tickerOk t then some t
      else
        match goFind p htmlLower with
        | some cap2 =>
          let t2 := toUpperList cap2
          if tickerOk t2 then some t2 else go rest
        | none => go rest
    | none =>
      match goFind p htmlLower with
      | some cap2 =>
        let t2 := toUpperList cap2
        if tickerOk t2 then some t2 else go rest
      | none => go rest

/-- The tier-1 loop of `extractTicker` over the exchange patterns (they are
only ever run on the original-case text). -/
def tryExchangeTickers (plainText : List Char) : Option (List Char) :=
  tryTickerPatterns exchangePatterns plainText

/-- Model of `parser.go:extractTicker`: tier-1 exchange patterns first; the ticker
left empty after tier 1 triggers the tier-2 proximity cascade. -/
def extractTicker (plainText htmlLower : List Char) : Option (List Char) :=
  match tryExchangeTickers plainText with
  | some t => some t
  | none => tryProximityTickers plainText htmlLower

/-- The shared loop shape of the three price extractors: first pattern whose
match parses as a float wins; a parse failure falls through. -/
def tryPricePatterns (pats : List RE) (s : List Char) : Option ℚ :=
  match pats with
  | [] => none
  | p :: rest =>
    match goFind p s with
    | some cap =>
      match parsePrice cap with
      | some v => some v
      | none => tryPricePatterns rest s
    | none => tryPricePatterns rest s

/-- Model of `parser.go:extractBuyPrice` (run on the lowercased text). -/
def extractBuyPrice (htmlLower : List Char) : Option ℚ :=
  tryPricePatterns buyPatterns htmlLower

/-- Model of `parser.go:extractStopPrice`. -/
def extractStopPrice (htmlLower : List Char) : Option ℚ :=
  tryPricePatterns stopPatterns htmlLower

/-- Model of `parser.go:extractTargetPrice`. -/
def extractTargetPrice (htmlLower : List Char) : Option ℚ :=
  tryPricePatterns targetPatterns htmlLower

/-!  Data model: times, emails, signals and row stores. -/

/-- Go `time.Time` to the precision the pipeline observes: Unix seconds plus
sub-second nanoseconds.  `Unix()` returns the seconds and discards the
nanoseconds; `Add(24*time.Hour)` adds exactly 86400 seconds and leaves the
nanoseconds unchanged. -/
structure GoTime where
  sec : Int
  nsec : Nat
deriving DecidableEq, Repr

/-- Model of `t.Unix()`. -/
def GoTime.unix (t : GoTime) : Int := t.sec

/-- Model of `t.Add(24 * time.Hour)`. -/
def GoTime.add24Hours (t : GoTime) : GoTime := { t with sec := t.sec + 86400 }

/-- The `EmailSignal` record fed to the extraction engine. -/
structure EmailSignal where
  ID : String
  ThreadID : String
  Subject : String
  Date : GoTime
  HTML : List Char
deriving DecidableEq, Repr

/-- The `TradingSignal` struct of the Go sources.  Zero values (`""`, `0`)
stand in for unset fields exactly as in Go. -/
structure TradingSignal where
  EmailID : String
  Ticker : List Char
  SignalDate : Int
  EntryDate : Int
  BuyPrice : ℚ
  StopPrice : ℚ
  TargetPrice : ℚ
deriving DecidableEq, Repr

/-- A row of the `parse_buy_stop_target` staging table.  Every column except
the key is nullable in the schema, hence `Option`-valued here; the writer
below always binds concrete (non-NULL) values. -/
structure StagingRow where
  emailId : String
  ticker : Option (List Char)
  signalDate : Option Int
  entryDate : Option Int
  buyPrice : Option ℚ
  stopPrice : Option ℚ
  targetPrice : Option ℚ
  rawHtml : Option (List Char)
  parsedText : Option (List Char)
deriving DecidableEq, Repr

/-- A `CleanSignal` as scanned by `getCleanSignals` /
`getCleanSignalsFromParsing`. -/
structure CleanSignal where
  EmailID : String
  Ticker : List Char
  SignalDate : Int
  EntryDate : Int
  BuyPrice : ℚ
  StopPrice : ℚ
  TargetPrice : ℚ
deriving DecidableEq, Repr

/-- A row of the `trade_signals` table. -/
structure TradeRow where
  emailId : String
  ticker : List Char
  signalDate : Int
  entryDate : Int
  buyPrice : ℚ
  stopPrice : ℚ
  targetPrice : ℚ
deriving DecidableEq, Repr

namespace Parser

/-- The empty `TradingSignal` built by `parseSignalFromEmail` when no valid
signal was found: only the id and the two dates are set, the remaining
fields keep their Go zero values. -/
def emptySignal (email : EmailSignal) : TradingSignal :=
  { EmailID := email.ID
    Ticker := []
    SignalDate := email.Date.unix * 1000
    EntryDate := email.Date.add24Hours.unix * 1000
    BuyPrice := 0
    StopPrice := 0
    TargetPrice := 0 }

/-- Model of `parser.go:extractTradingSignalWithText`.  `sanitize` stands for the
external `bluemonday.StripTagsPolicy().Sanitize` collaborator; everything
after it is transcribed from the source: truncate the HTML to its first
1000 characters, sanitize, collapse `[\r\n\t]+` and then `\s+` to single
spaces, trim, lowercase for price matching, set the two dates from the
email's date, run the ticker and price cascades, and validate (nil signal
unless a ticker and a nonzero buy price were found).  The error component
of the returned triple is `none` on every path, as in the source. -/
def extractTradingSignalWithText (sanitize : List Char → List Char)
    (email : EmailSignal) :
    Option TradingSignal × List Char × Option String :=
  let htmlContent := email.HTML.take 1000
  let plainText0 := sanitize htmlContent
  let plainText1 := collapseRuns isCRLFTab plainText0
  let plainText2 := collapseRuns isSpaceGo plainText1
  let plainText := trimSpaceList plainText2
  let cleanedText := toLowerList plainText
  let htmlLower := toLowerList plainText
  let ticker := (extractTicker plainText htmlLower).getD []
  let buy := (extractBuyPrice htmlLower).getD 0
  let stop := (extractStopPrice htmlLower).getD 0
  let target := (extractTargetPrice htmlLower).getD 0
  let signal : TradingSignal :=
    { EmailID := email.ID
      Ticker := ticker
      SignalDate := email.Date.unix * 1000
      EntryDate := email.Date.add24Hours.unix * 1000
      BuyPrice := buy
      StopPrice := stop
      TargetPrice := target }
  if signal.Ticker = [] ∨ signal.BuyPrice = 0 then (none, cleanedText, none)
  else (some signal, cleanedText, none)

/-- The signal a processed email contributes to the staging store: the
extracted signal when validation passed, otherwise the empty record
(`parseSignalFromEmail`'s `signal == nil` branch). -/
def effectiveSignal (sanitize : List Char → List Char)
    (email : EmailSignal) : TradingSignal :=
  ((extractTradingSignalWithText sanitize email).1).getD (emptySignal email)

end Parser

namespace Database

/-- The row bound by `database.go:saveToParseBuyStopTarget`: every column
receives a concrete (non-NULL) value — `raw_html` the cleaned text and
`parsed_text` the empty string, as in the source. -/
def stagedRow (email : EmailSignal) (signal : TradingSignal)
    (htmlStripped : List Char) : StagingRow :=
  { emailId := email.ID
    ticker := some signal.Ticker
    signalDate := some signal.SignalDate
    entryDate := some signal.EntryDate
    buyPrice := some signal.BuyPrice
    stopPrice := some signal.StopPrice
    targetPrice := some signal.TargetPrice
    rawHtml := some htmlStripped
    parsedText := some [] }

/-- Model of `database.go:saveToParseBuyStopTarget` as a staging-store transformer:
`INSERT … ON CONFLICT(email_id) DO UPDATE` keyed on `email_id`. -/
def saveToParseBuyStopTarget (email : EmailSignal) (signal : TradingSignal)
    (htmlStripped : List Char) (store : List StagingRow) : List StagingRow :=
  let row := stagedRow email signal htmlStripped
  if store.any (fun r => r.emailId = email.ID) then
    store.map (fun r => if r.emailId = email.ID then row else r)
  else store ++ [row]

/-- The `WHERE` clause of `getCleanSignals` / `getCleanSignalsFromParsing`:
`ticker IS NOT NULL AND ticker != '' AND buy_price IS NOT NULL AND
buy_price > 0 AND stop_price IS NOT NULL AND stop_price > 0 AND
target_price IS NOT NULL AND target_price > 0`. -/
def cleanPred (r : StagingRow) : Bool :=
  (match r.ticker with | some t => !(t = []) | none => false) &&
  (match r.buyPrice with | some p => decide (0 < p) | none => false) &&
  (match r.stopPrice with | some p => decide (0 < p) | none => false) &&
  (match r.targetPrice with | some p => decide (0 < p) | none => false)

/-- The column scan of the clean-signal query (every scanned column is
non-NULL for selected rows, so the defaults are never used). -/
def rowToClean (r : StagingRow) : CleanSignal :=
  { EmailID := r.emailId
    Ticker := r.ticker.getD []
    SignalDate := r.signalDate.getD 0
    EntryDate := r.entryDate.getD 0
    BuyPrice := r.buyPrice.getD 0
    StopPrice := r.stopPrice.getD 0
    TargetPrice := r.targetPrice.getD 0 }

/-- Model of `ORDER BY signal_date DESC` via insertion sort (SQLite leaves the order
of ties unspecified; this picks one). -/
def insertByDateDesc (r : StagingRow) : List StagingRow → List StagingRow
  | [] => [r]
  | x :: xs =>
    if x.signalDate.getD 0 ≤ r.signalDate.getD 0 then r :: x :: xs
    else x :: insertByDateDesc r xs

/-- Model of `database.go:getCleanSignals` (identical to
`main.go:getCleanSignalsFromParsing`): filter by the validation gate, order
by `signal_date` descending, scan into `CleanSignal`s. -/
def getCleanSignals (store : List StagingRow) : List CleanSignal :=
  ((store.filter cleanPred).foldr insertByDateDesc []).map rowToClean

end Database

namespace Parser

/-- Model of `parser.go:parseSignalFromEmail`: extract, fall back to the empty signal,
save to the staging store.  The database write is the one fallible step;
its possible failure is modelled by the external `saveFail` oracle (a
non-`none` value standing for the driver error `Exec` would report). -/
def parseSignalFromEmail (sanitize : List Char → List Char)
    (saveFail : Option String) (email : EmailSignal)
    (store : List StagingRow) : Except String (List StagingRow) :=
  let res := extractTradingSignalWithText sanitize email
  match res.2.2 with
  | some e => .error ("failed to extract signal: " ++ e)
  | none =>
    let signal := res.1.getD (emptySignal email)
    match saveFail with
    | some e => .error ("failed to save parsed signal: " ++ e)
    | none => .ok (Database.saveToParseBuyStopTarget email signal res.2.1 store)

end Parser

/-- The row inserted into `trade_signals` for a clean signal. -/
def rowOfSignal (s : CleanSignal) : TradeRow :=
  { emailId := s.EmailID
    ticker := s.Ticker
    signalDate := s.SignalDate
    entryDate := s.EntryDate
    buyPrice := s.BuyPrice
    stopPrice := s.StopPrice
    targetPrice := s.TargetPrice }

namespace Main

/-- Model of `main.go:upsertToTradeSignals`: look up any row with the candidate's
`signal_date`; found means skip (success, store untouched); otherwise run
`INSERT … ON CONFLICT(email_id) DO UPDATE`, which updates the existing row
in place when the candidate's `email_id` is already present and appends a
new row otherwise.  This variant never reports an error on either path. -/
def upsertToTradeSignals (s : CleanSignal) (store : List TradeRow) :
    List TradeRow :=
  if store.any (fun r => r.signalDate = s.SignalDate) then store
  else if store.any (fun r => r.emailId = s.EmailID) then
    store.map (fun r => if r.emailId = s.EmailID then rowOfSignal s else r)
  else store ++ [rowOfSignal s]

/-- Model of the store effect of `processCleanSignalsConcurrently`, sequentialized:
each worker job applies one `upsertToTradeSignals`. -/
def promoteAll (sigs : List CleanSignal) (store : List TradeRow) :
    List TradeRow :=
  sigs.foldl (fun st s => upsertToTradeSignals s st) store

end Main

namespace Database

/-- Model of `database.go:upsertToTradeSignals`: same date-lookup-then-skip, but the
insert is a plain `INSERT` against a schema with `email_id TEXT UNIQUE`, so
a duplicate `email_id` makes `Exec` fail and the function returns an
error. -/
def upsertToTradeSignals (s : CleanSignal) (store : List TradeRow) :
    Except String (List TradeRow) :=
  if store.any (fun r => r.signalDate = s.SignalDate) then .ok store
  else if store.any (fun r => r.emailId = s.EmailID) then
    .error "failed to upsert clean signal: UNIQUE constraint failed: trade_signals.email_id"
  else .ok (store ++ [rowOfSignal s])

/-- Sequentialized promotion for the `database.go` variant: a worker whose
job errors leaves the store as it was. -/
def promoteAll (sigs : List CleanSignal) (store : List TradeRow) :
    List TradeRow :=
  sigs.foldl (fun st s =>
    match upsertToTradeSignals s st with
    | .ok st2 => st2
    | .error _ => st) store

end Database

namespace Main

/-- Model of `main.go:extractTradingSignalWithText`: strip tags with `<[^>]*>` → one
space, collapse `\s+`, trim, lowercase for price matching; then the same
ticker and price cascades as `parser.go` (the pattern lists are inlined
verbatim in this variant), the same date assignments, and the same
validation.  The error result is `nil` on every path. -/
def extractTradingSignalWithText (email : EmailSignal) :
    Option TradingSignal × List Char × Option String :=
  let stripped0 := stripTags email.HTML
  let stripped1 := collapseRuns isSpaceGo stripped0
  let htmlStripped := trimSpaceList stripped1
  let htmlLower := toLowerList htmlStripped
  let ticker := (extractTicker htmlStripped htmlLower).getD []
  let buy := (extractBuyPrice htmlLower).getD 0
  let stop := (extractStopPrice htmlLower).getD 0
  let target := (extractTargetPrice htmlLower).getD 0
  let signal : TradingSignal :=
    { EmailID := email.ID
      Ticker := ticker
      SignalDate := email.Date.unix * 1000
      EntryDate := email.Date.add24Hours.unix * 1000
      BuyPrice := buy
      StopPrice := stop
      TargetPrice := target }
  if signal.Ticker = [] ∨ signal.BuyPrice = 0 then (none, htmlStripped, none)
  else (some signal, htmlStripped, none)

/-- The signal `main.go:parseAndSaveSignal` stages for an email: the
extracted signal, or the empty record built in its `signal == nil` branch
(same fields as `parser.go`'s). -/
def effectiveSignal (email : EmailSignal) : TradingSignal :=
  ((extractTradingSignalWithText email).1).getD (Parser.emptySignal email)

end Main

/-!  Multi-part message bodies and their decoding (claim C8). -/

/-- The 6-bit value of a base64url alphabet character. -/
def b64val (c : Char) : Option Nat :=
  if 65 ≤ c.toNat ∧ c.toNat ≤ 90 then some (c.toNat - 65)
  else if 97 ≤ c.toNat ∧ c.toNat ≤ 122 then some (c.toNat - 97 + 26)
  else if 48 ≤ c.toNat ∧ c.toNat ≤ 57 then some (c.toNat - 48 + 52)
  else if c = '-' then some 62
  else if c = '_' then some 63
  else none

/-- Model of `base64.URLEncoding.DecodeString` (padded base64url, four-character
groups, `=` padding only in the final group): the decoded bytes, or `none`
on malformed input. -/
def decodeBase64URL : List Char → Option (List Nat)
  | [] => some []
  | c1 :: c2 :: c3 :: c4 :: rest =>
    match b64val c1, b64val c2 with
    | some v1, some v2 =>
      if c3 = '=' then
        if c4 = '=' ∧ rest = [] then some [v1 * 4 + v2 / 16] else none
      else
        match b64val c3 with
        | some v3 =>
          if c4 = '=' then
            if rest = [] then
              some [v1 * 4 + v2 / 16, (v2 % 16) * 16 + v3 / 4]
            else none
          else
            match b64val c4 with
            | some v4 =>
              match decodeBase64URL rest with
              | some bs =>
                some ([v1 * 4 + v2 / 16, (v2 % 16) * 16 + v3 / 4,
                  (v3 % 4) * 64 + v4] ++ bs)
              | none => none
            | none => none
        | none => none
    | _, _ => none
  | _ => none

/-- A Gmail `MessagePart`: MIME type, optional body data (base64url), and
nested sub-parts.  `bodyData = none` models `part.Body == nil`. -/
inductive MessagePart where
  | mk : String → Option (List Char) → List MessagePart → MessagePart

/-- MIME type accessor. -/
def MessagePart.mimeType : MessagePart → String
  | .mk t _ _ => t

/-- Body-data accessor. -/
def MessagePart.bodyData : MessagePart → Option (List Char)
  | .mk _ d _ => d

/-- Sub-part accessor. -/
def MessagePart.subParts : MessagePart → List MessagePart
  | .mk _ _ ps => ps

/-- Whether this part carries decodable data (`part.Body != nil &&
part.Body.Data != ""`). -/
def MessagePart.hasData (p : MessagePart) : Bool :=
  match p.bodyData with
  | some d => !(d = [])
  | none => false

mutual

/-- The `processPayload` closure of `main.go:saveEmailToDB` (the landing
write): walk the part tree depth-first threading the `content` accumulator;
a plain-text part always overwrites `content`, an HTML part is decoded and
stored only while `content` is still empty; any attempted decode that fails
aborts the whole walk with an error. -/
def processPayloadLanding (p : MessagePart) (content : List Nat) :
    Except String (List Nat) :=
  match p with
  | .mk mt bd parts =>
    let step1 : Except String (List Nat) :=
      if mt = "text/plain" then
        match bd with
        | some d =>
          if d = [] then .ok content
          else
            match decodeBase64URL d with
            | some bytes => .ok bytes
            | none => .error "failed to decode plain text"
        | none => .ok content
      else if mt = "text/html" ∧ content = [] then
        match bd with
        | some d =>
          if d = [] then .ok content
          else
            match decodeBase64URL d with
            | some bytes => .ok bytes
            | none => .error "failed to decode HTML"
        | none => .ok content
      else .ok content
    match step1 with
    | .error e => .error e
    | .ok c1 => processPayloadLandingList parts c1

/-- The recursive loop over `part.Parts`. -/
def processPayloadLandingList (ps : List MessagePart) (content : List Nat) :
    Except String (List Nat) :=
  match ps with
  | [] => .ok content
  | q :: qs =>
    match processPayloadLanding q content with
    | .error e => .error e
    | .ok c2 => processPayloadLandingList qs c2

end

mutual

/-- The `processPayload` closure of `main.go:upsertFullEmailToDB` (the
enrichment write): the same depth-first walk threading the pair
`(plainText, html)`; both branches overwrite unconditionally. -/
def processPayloadFull (p : MessagePart) (acc : List Nat × List Nat) :
    Except String (List Nat × List Nat) :=
  match p with
  | .mk mt bd parts =>
    let step1 : Except String (List Nat × List Nat) :=
      if mt = "text/plain" then
        match bd with
        | some d =>
          if d = [] then .ok acc
          else
            match decodeBase64URL d with
            | some bytes => .ok (bytes, acc.2)
            | none => .error "failed to decode plain text"
        | none => .ok acc
      else if mt = "text/html" then
        match bd with
        | some d =>
          if d = [] then .ok acc
          else
            match decodeBase64URL d with
            | some bytes => .ok (acc.1, bytes)
            | none => .error "failed to decode HTML"
        | none => .ok acc
      else .ok acc
    match step1 with
    | .error e => .error e
    | .ok a1 => processPayloadFullList parts a1

/-- The recursive loop over `part.Parts`. -/
def processPayloadFullList (ps : List MessagePart) (acc : List Nat × List Nat) :
    Except String (List Nat × List Nat) :=
  match ps with
  | [] => .ok acc
  | q :: qs =>
    match processPayloadFull q acc with
    | .error e => .error e
    | .ok a2 => processPayloadFullList qs a2

end

mutual

/-- Model of `database.go:extractHTMLFromPart`: first `text/html` part (with
decodable data) of the depth-first walk; no plain-text preference. -/
def extractHTMLFromPart (p : MessagePart) : List Nat :=
  match p with
  | .mk mt bd parts =>
    match
      (if mt = "text/html" then
        match bd with
        | some d =>
          if d = [] then []
          else
            match decodeBase64URL d with
            | some bytes => bytes
            | none => []
        | none => []
      else []) with
    | [] => extractHTMLFromPartList parts
    | bytes => bytes

/-- The recursive loop over sub-parts: first nonempty result wins. -/
def extractHTMLFromPartList (ps : List MessagePart) : List Nat :=
  match ps with
  | [] => []
  | q :: qs =>
    match extractHTMLFromPart q with
    | [] => extractHTMLFromPartList qs
    | bytes => bytes

end

/-!  Shared auxiliary lemmas. -/

/-- The error component of the extraction triple is `none` on both paths of
`parser.go:extractTradingSignalWithText`. -/
theorem parserExtractErrNone (sanitize : List Char → List Char)
    (email : EmailSignal) :
    (Parser.extractTradingSignalWithText sanitize email).2.2 = none := by
  simp only [Parser.extractTradingSignalWithText]
  split <;> rfl

/-- Likewise for `main.go:extractTradingSignalWithText`. -/
theorem mainExtractErrNone (email : EmailSignal) :
    (Main.extractTradingSignalWithText email).2.2 = none := by
  simp only [Main.extractTradingSignalWithText]
  split <;> rfl

/-- The dates of the signal contributed by an email (valid or empty). -/
theorem parserEffectiveSignalDates (sanitize : List Char → List Char)
    (email : EmailSignal) :
    (Parser.effectiveSignal sanitize email).SignalDate =
      email.Date.unix * 1000 ∧
    (Parser.effectiveSignal sanitize email).EntryDate =
      email.Date.add24Hours.unix * 1000 := by
  simp only [Parser.effectiveSignal, Parser.extractTradingSignalWithText]
  split
  · exact ⟨rfl, rfl⟩
  · exact ⟨rfl, rfl⟩

/-- Likewise for the `main.go` variant. -/
theorem mainEffectiveSignalDates (email : EmailSignal) :
    (Main.effectiveSignal email).SignalDate = email.Date.unix * 1000 ∧
    (Main.effectiveSignal email).EntryDate =
      email.Date.add24Hours.unix * 1000 := by
  simp only [Main.effectiveSignal, Main.extractTradingSignalWithText]
  split
  · exact ⟨rfl, rfl⟩
  · exact ⟨rfl, rfl⟩

/-!  Claims C2, C6, C7, C9, C10. -/

/-- Claim C2: ticker extraction tries the tier-1 exchange-qualified patterns
first; a tier-1 ticker is returned no matter what the proximity tier would
say, and the tier-2 proximity cascade runs exactly when tier 1 produced no
accepted ticker.  On the input `Acme Corp (NASDAQ: ACME) — buy XYZ at 10`
the extracted ticker is `ACME`, not `XYZ`. -/
theorem C2_ticker_precedence :
    (∀ (pt hl t : List Char),
      tryExchangeTickers pt = some t → extractTicker pt hl = some t) ∧
    (∀ (pt hl : List Char),
      tryExchangeTickers pt = none →
      extractTicker pt hl = tryProximityTickers pt hl) ∧
    extractTicker "Acme Corp (NASDAQ: ACME) — buy XYZ at 10".data
      (toLowerList "Acme Corp (NASDAQ: ACME) — buy XYZ at 10".data) =
      some "ACME".data := by
  refine ⟨?_, ?_, ?_⟩
  · intro pt hl t h
    simp [extractTicker, h]
  · intro pt hl h
    simp [extractTicker, h]
  · decide

/-- Witness for C2: at the concrete example text, tier 1 finds `ACME`
(discharged by evaluation) and the theorem yields the extraction result. -/
theorem C2_ticker_precedence_witness :
    extractTicker "Acme Corp (NASDAQ: ACME) — buy XYZ at 10".data
      (toLowerList "Acme Corp (NASDAQ: ACME) — buy XYZ at 10".data) =
      some "ACME".data :=
  C2_ticker_precedence.1 _ _ "ACME".data (by decide)

/-- Claim C6: for every processed record — valid signal or empty fallback —
`signal_date` is the record's date in epoch milliseconds (`Unix()*1000`)
and `entry_date` is exactly `signal_date + 86400000`. -/
theorem C6_entry_date_is_next_day :
    ∀ (sanitize : List Char → List Char) (email : EmailSignal),
      (Parser.effectiveSignal sanitize email).SignalDate =
        email.Date.unix * 1000 ∧
      (Parser.effectiveSignal sanitize email).EntryDate =
        (Parser.effectiveSignal sanitize email).SignalDate + 86400000 := by
  intro san email
  obtain ⟨h1, h2⟩ := parserEffectiveSignalDates san email
  refine ⟨h1, ?_⟩
  rw [h2, h1]
  simp only [GoTime.add24Hours, GoTime.unix]
  ring

/-- Claim C7 counterexample: the claim asserts that `buy under 8` yields no
buy price (because no "under" pattern exists), but the first buy pattern
`buy.*?(?:at|@|price|:)?\s*\$?(\d+\.?\d*)` lets arbitrary non-newline text
separate `buy` from the number, so the extractor returns 8. -/
theorem C7_buy_under_counterexample :
    extractBuyPrice "buy under 8".data = some (8 : ℚ) ∧
    extractBuyPrice "buy under 8".data ≠ none := by
  refine ⟨by decide, by decide⟩

/-- Claim C7 (amended): `buy at $12.50` yields buy price 12.50, and
`buy under 8` yields 8.0 as well — not a miss — because the lazy-gap first
buy pattern matches any text between the keyword and the number. -/
theorem C7_buy_price_parsing :
    extractBuyPrice "buy at $12.50".data = some (25 / 2 : ℚ) ∧
    extractBuyPrice "buy under 8".data = some (8 : ℚ) := by
  constructor
  · have hfind : goFind (reSeq [reLit "buy", .lazyStar isDotGo, rePriceTail])
        "buy at $12.50".data = some "12.50".data := by decide
    have hparse : parsePrice "12.50".data = some (25 / 2 : ℚ) := by
      simp +decide [parsePrice, digitsToNat, List.takeWhile, List.dropWhile,
        isDigitGo]
      norm_num
    simp only [extractBuyPrice, buyPatterns, tryPricePatterns, hfind, hparse]
  · decide

/-- Claim C9: the extraction function's error result is `nil` on every path
(in both source variants), so the only error a parse worker can report is a
failure of the staging-store write. -/
theorem C9_extraction_never_fails :
    (∀ (sanitize : List Char → List Char) (email : EmailSignal),
      (Parser.extractTradingSignalWithText sanitize email).2.2 = none) ∧
    (∀ (email : EmailSignal),
      (Main.extractTradingSignalWithText email).2.2 = none) ∧
    (∀ (sanitize : List Char → List Char) (saveFail : Option String)
        (email : EmailSignal) (store : List StagingRow) (msg : String),
      Parser.parseSignalFromEmail sanitize saveFail email store =
        .error msg →
      ∃ e, saveFail = some e ∧
        msg = "failed to save parsed signal: " ++ e) := by
  refine ⟨parserExtractErrNone, mainExtractErrNone, ?_⟩
  intro san sf email store msg h
  simp only [Parser.parseSignalFromEmail, parserExtractErrNone] at h
  cases sf with
  | none => simp at h
  | some e =>
    simp only [Except.error.injEq] at h
    exact ⟨e, rfl, h.symm⟩

/-- Witness for C9: a concrete failing store write is the reported error. -/
theorem C9_extraction_never_fails_witness :
    ∃ e, (some "disk full" : Option String) = some e ∧
      "failed to save parsed signal: disk full" =
        "failed to save parsed signal: " ++ e :=
  C9_extraction_never_fails.2.2 id (some "disk full")
    ⟨"m0", "t0", "s0", ⟨0, 0⟩, []⟩ [] _ (by rfl)

/-- Claim C10: every produced `signal_date` / `entry_date` is the record's
Unix seconds times 1000 (sub-second nanoseconds are discarded by `Unix()`),
hence an exact multiple of 1000 milliseconds, in both source variants. -/
theorem C10_dates_whole_second_multiples :
    ∀ (sanitize : List Char → List Char) (email : EmailSignal),
      (Parser.effectiveSignal sanitize email).SignalDate =
        email.Date.sec * 1000 ∧
      (Main.effectiveSignal email).SignalDate = email.Date.sec * 1000 ∧
      (1000 : Int) ∣ (Parser.effectiveSignal sanitize email).SignalDate ∧
      (1000 : Int) ∣ (Parser.effectiveSignal sanitize email).EntryDate ∧
      (1000 : Int) ∣ (Main.effectiveSignal email).SignalDate ∧
      (1000 : Int) ∣ (Main.effectiveSignal email).EntryDate := by
  intro san email
  obtain ⟨hp1, hp2⟩ := parserEffectiveSignalDates san email
  obtain ⟨hm1, hm2⟩ := mainEffectiveSignalDates email
  simp only [GoTime.unix, GoTime.add24Hours] at hp1 hp2 hm1 hm2
  refine ⟨hp1, hm1, ?_, ?_, ?_, ?_⟩
  · exact hp1 ▸ ⟨email.Date.sec, by ring⟩
  · exact hp2 ▸ ⟨email.Date.sec + 86400, by ring⟩
  · exact hm1 ▸ ⟨email.Date.sec, by ring⟩
  · exact hm2 ▸ ⟨email.Date.sec + 86400, by ring⟩

/-!  Claim C4: the clean-signal selection gate. -/

theorem mem_insertByDateDesc (r x : StagingRow) (l : List StagingRow) :
    x ∈ Database.insertByDateDesc r l ↔ x = r ∨ x ∈ l := by
  induction l with
  | nil => simp [Database.insertByDateDesc]
  | cons y ys ih =>
    simp only [Database.insertByDateDesc]
    split
    · simp [List.mem_cons]
    · simp only [List.mem_cons, ih]
      tauto

theorem mem_sortByDateDesc (x : StagingRow) (l : List StagingRow) :
    x ∈ l.foldr Database.insertByDateDesc [] ↔ x ∈ l := by
  induction l with
  | nil => simp
  | cons y ys ih =>
    simp only [List.foldr_cons, mem_insertByDateDesc, ih, List.mem_cons]

/-- Claim C4: a staging row is CleanSignal-eligible exactly when its ticker
is present and non-empty and its three prices are present and positive; in
particular `ticker="ACME", buy_price=0` and `ticker="", buy_price=12.50`
rows are not selected. -/
theorem C4_clean_signal_gate :
    (∀ (store : List StagingRow) (c : CleanSignal),
      c ∈ Database.getCleanSignals store →
      ∃ r, r ∈ store ∧ Database.cleanPred r = true ∧
        Database.rowToClean r = c) ∧
    (∀ r : StagingRow, Database.cleanPred r = true ↔
      ((∃ t, r.ticker = some t ∧ t ≠ []) ∧
       (∃ p, r.buyPrice = some p ∧ 0 < p) ∧
       (∃ p, r.stopPrice = some p ∧ 0 < p) ∧
       (∃ p, r.targetPrice = some p ∧ 0 < p))) ∧
    Database.getCleanSignals
      [⟨"m", some "ACME".data, some 1, some 2, some 0, some 45, some 65,
        some [], some []⟩] = [] ∧
    Database.getCleanSignals
      [⟨"m", some [], some 1, some 2, some (25 / 2 : ℚ), some 45, some 65,
        some [], some []⟩] = [] := by
  refine ⟨?_, ?_, by decide, by decide⟩
  · intro store c hc
    simp only [Database.getCleanSignals, List.mem_map] at hc
    obtain ⟨r, hr, hrc⟩ := hc
    rw [mem_sortByDateDesc] at hr
    rw [List.mem_filter] at hr
    exact ⟨r, hr.1, hr.2, hrc⟩
  · intro r
    cases ht : r.ticker <;> cases hb : r.buyPrice <;>
      cases hs : r.stopPrice <;> cases htg : r.targetPrice <;>
      simp [Database.cleanPred, ht, hb, hs, htg]
    tauto

/-- Witness for C4: a fully valid staging row is selected, and the theorem
recovers it from the selection. -/
theorem C4_clean_signal_gate_witness :
    ∃ r, r ∈ [(⟨"m", some "WDG".data, some 1, some 2, some 50, some 45,
        some 65, some [], some []⟩ : StagingRow)] ∧
      Database.cleanPred r = true ∧
      Database.rowToClean r =
        Database.rowToClean ⟨"m", some "WDG".data, some 1, some 2, some 50,
          some 45, some 65, some [], some []⟩ :=
  C4_clean_signal_gate.1 _ _ (by decide)

/-!  Claim C5: promotion behaviour per candidate. -/

/-- The `SELECT email_id FROM trade_signals WHERE signal_date = ?` check. -/
def dateOccupied (d : Int) (store : List TradeRow) : Bool :=
  store.any (fun r => r.signalDate = d)

/-- Whether a `trade_signals` row with this `email_id` exists. -/
def emailPresent (e : String) (store : List TradeRow) : Bool :=
  store.any (fun r => r.emailId = e)

/-- Claim C5 (amended): with the candidate's `signal_date` occupied, both
variants return success and leave the store untouched (first writer per
date wins); with the date free, both insert a fresh row when the candidate
`email_id` is new, but an existing `email_id` makes the `main.go` variant
update that row in place (`ON CONFLICT(email_id) DO UPDATE`) and the
`database.go` variant fail on its UNIQUE constraint — promotion is
therefore not strictly insert-only. -/
theorem C5_promotion_skip_or_insert :
    ∀ (s : CleanSignal) (store : List TradeRow),
      (dateOccupied s.SignalDate store = true →
        Main.upsertToTradeSignals s store = store ∧
        Database.upsertToTradeSignals s store = .ok store) ∧
      (dateOccupied s.SignalDate store = false →
        emailPresent s.EmailID store = false →
        Main.upsertToTradeSignals s store = store ++ [rowOfSignal s] ∧
        Database.upsertToTradeSignals s store =
          .ok (store ++ [rowOfSignal s])) ∧
      (dateOccupied s.SignalDate store = false →
        emailPresent s.EmailID store = true →
        Main.upsertToTradeSignals s store =
          store.map (fun r => if r.emailId = s.EmailID then rowOfSignal s
            else r) ∧
        ∃ msg, Database.upsertToTradeSignals s store = .error msg) := by
  intro s store
  refine ⟨?_, ?_, ?_⟩
  · intro h1
    simp only [dateOccupied] at h1
    constructor <;>
      simp [Main.upsertToTradeSignals, Database.upsertToTradeSignals, h1]
  · intro h1 h2
    simp only [dateOccupied] at h1
    simp only [emailPresent] at h2
    constructor <;>
      simp [Main.upsertToTradeSignals, Database.upsertToTradeSignals, h1, h2]
  · intro h1 h2
    simp only [dateOccupied] at h1
    simp only [emailPresent] at h2
    refine ⟨?_, ?_⟩
    · simp [Main.upsertToTradeSignals, h1, h2]
    · refine ⟨"failed to upsert clean signal: UNIQUE constraint failed: trade_signals.email_id", ?_⟩
      simp [Database.upsertToTradeSignals, h1, h2]

/-- Witness for C5: a candidate whose date is already occupied is skipped
with success by both variants. -/
theorem C5_promotion_skip_or_insert_witness :
    Main.upsertToTradeSignals ⟨"e2", "BBB".data, 1000, 2000, 20, 19, 22⟩
        [⟨"e1", "AAA".data, 1000, 2000, 10, 9, 12⟩] =
      [⟨"e1", "AAA".data, 1000, 2000, 10, 9, 12⟩] ∧
    Database.upsertToTradeSignals ⟨"e2", "BBB".data, 1000, 2000, 20, 19, 22⟩
        [⟨"e1", "AAA".data, 1000, 2000, 10, 9, 12⟩] =
      .ok [⟨"e1", "AAA".data, 1000, 2000, 10, 9, 12⟩] :=
  (C5_promotion_skip_or_insert ⟨"e2", "BBB".data, 1000, 2000, 20, 19, 22⟩
    [⟨"e1", "AAA".data, 1000, 2000, 10, 9, 12⟩]).1 (by decide)

/-- Claim C5 counterexample: with the date free but the `email_id` already
present, the `main.go` promotion statement rewrites every field of the
existing row, contradicting "never updates any field of an existing
FinalSignal row". -/
theorem C5_update_in_place_counterexample :
    Main.upsertToTradeSignals ⟨"e1", "BBB".data, 3000, 4000, 20, 19, 22⟩
        [⟨"e1", "AAA".data, 1000, 2000, 10, 9, 12⟩] =
      [⟨"e1", "BBB".data, 3000, 4000, 20, 19, 22⟩] ∧
    ([(⟨"e1", "BBB".data, 3000, 4000, 20, 19, 22⟩ : TradeRow)] ≠
      [(⟨"e1", "AAA".data, 1000, 2000, 10, 9, 12⟩ : TradeRow)]) :=
  ⟨by decide, by decide⟩

/-!  Claim C1: date uniqueness of the promoted store. -/

/-- The `signal_date` column of a `trade_signals` store. -/
def datesOf (store : List TradeRow) : List Int :=
  store.map (fun r => r.signalDate)

/-- The `email_id` column of a `trade_signals` store. -/
def emailsOf (store : List TradeRow) : List String :=
  store.map (fun r => r.emailId)

theorem notMemDatesOf {s : CleanSignal} {store : List TradeRow}
    (h : (store.any fun r => r.signalDate = s.SignalDate) = false) :
    s.SignalDate ∉ datesOf store := by
  intro hmem
  obtain ⟨r, hr, hrd⟩ := List.mem_map.1 hmem
  have := List.any_eq_false.mp h r hr
  simp [hrd] at this

theorem notMemEmailsOf {s : CleanSignal} {store : List TradeRow}
    (h : (store.any fun r => r.emailId = s.EmailID) = false) :
    s.EmailID ∉ emailsOf store := by
  intro hmem
  obtain ⟨r, hr, hre⟩ := List.mem_map.1 hmem
  have := List.any_eq_false.mp h r hr
  simp [hre] at this

theorem nodupAppendSingle {α : Type} {l : List α} {x : α}
    (h : l.Nodup) (hx : x ∉ l) : (l ++ [x]).Nodup := by
  rw [List.nodup_append]
  refine ⟨h, List.nodup_singleton x, ?_⟩
  intro a ha hax
  simp only [List.mem_singleton] at hax
  exact hx (hax ▸ ha)

theorem nodupDatesUpdate (s : CleanSignal) :
    ∀ store : List TradeRow,
      (∀ r ∈ store, r.signalDate ≠ s.SignalDate) →
      (emailsOf store).Nodup →
      (datesOf store).Nodup →
      (datesOf (store.map (fun r =>
        if r.emailId = s.EmailID then rowOfSignal s else r))).Nodup := by
  intro store
  induction store with
  | nil => simp [datesOf]
  | cons r rest ih =>
    intro hne hemail hdate
    simp only [emailsOf, datesOf, List.map_cons, List.nodup_cons] at hemail hdate
    obtain ⟨hre, hener⟩ := hemail
    obtain ⟨hrd, hdr⟩ := hdate
    simp only [datesOf, List.map_cons, List.map_map, List.nodup_cons]
    by_cases hr : r.emailId = s.EmailID
    · rw [if_pos hr]
      have hrest : ∀ x ∈ rest,
          (if x.emailId = s.EmailID then rowOfSignal s else x) = x := by
        intro x hx
        rw [if_neg]
        intro hxe
        exact hre (by rw [hr, ← hxe]; exact List.mem_map_of_mem _ hx)
      have hmaps : rest.map ((fun x => x.signalDate) ∘
          (fun x => if x.emailId = s.EmailID then rowOfSignal s else x)) =
          rest.map (fun x => x.signalDate) := by
        apply List.map_congr_left
        intro x hx
        simp only [Function.comp_apply, hrest x hx]
      constructor
      · intro hmem
        rw [hmaps] at hmem
        obtain ⟨x, hx, hxd⟩ := List.mem_map.1 hmem
        have hxs : x.signalDate = s.SignalDate := by
          simpa [rowOfSignal] using hxd
        exact hne x (List.mem_cons_of_mem r hx) hxs
      · rw [hmaps]
        exact hdr
    · rw [if_neg hr]
      constructor
      · intro hmem
        obtain ⟨x, hx, hxd⟩ := List.mem_map.1 hmem
        simp only [Function.comp_apply] at hxd
        by_cases h2 : x.emailId = s.EmailID
        · rw [if_pos h2] at hxd
          have hxs : r.signalDate = s.SignalDate := by
            simpa [rowOfSignal] using hxd.symm
          exact hne r (List.mem_cons_self r rest) hxs
        · rw [if_neg h2] at hxd
          exact hrd (hxd ▸ List.mem_map_of_mem _ hx)
      · have := ih (fun x hx => hne x (List.mem_cons_of_mem r hx)) hener hdr
        simpa [datesOf, List.map_map] using this

theorem mainUpsertPreserves (s : CleanSignal) (store : List TradeRow)
    (hd : (datesOf store).Nodup) (he : (emailsOf store).Nodup) :
    (datesOf (Main.upsertToTradeSignals s store)).Nodup ∧
    (emailsOf (Main.upsertToTradeSignals s store)).Nodup := by
  unfold Main.upsertToTradeSignals
  by_cases h1 : (store.any fun r => r.signalDate = s.SignalDate) = true
  · simp only [h1, if_true]
    exact ⟨hd, he⟩
  · rw [Bool.not_eq_true] at h1
    simp only [h1]
    by_cases h2 : (store.any fun r => r.emailId = s.EmailID) = true
    · simp only [h2, if_true, Bool.false_eq_true, if_false]
      constructor
      · apply nodupDatesUpdate s store _ he hd
        intro r hr hrd
        have := List.any_eq_false.mp h1 r hr
        simp [hrd] at this
      · have hpt : ∀ x ∈ store,
            (if x.emailId = s.EmailID then rowOfSignal s else x).emailId =
              x.emailId := by
          intro x hx
          by_cases hxe : x.emailId = s.EmailID
          · rw [if_pos hxe]
            exact hxe.symm
          · rw [if_neg hxe]
        have : emailsOf (store.map (fun r =>
            if r.emailId = s.EmailID then rowOfSignal s else r)) =
            emailsOf store := by
          simp only [emailsOf, List.map_map]
          exact List.map_congr_left (fun x hx => by
            simpa using hpt x hx)
        rw [this]
        exact he
    · rw [Bool.not_eq_true] at h2
      simp only [h2, Bool.false_eq_true, if_false]
      constructor
      · have : datesOf (store ++ [rowOfSignal s]) =
            datesOf store ++ [s.SignalDate] := by
          simp [datesOf, rowOfSignal]
        rw [this]
        exact nodupAppendSingle hd (notMemDatesOf h1)
      · have : emailsOf (store ++ [rowOfSignal s]) =
            emailsOf store ++ [s.EmailID] := by
          simp [emailsOf, rowOfSignal]
        rw [this]
        exact nodupAppendSingle he (notMemEmailsOf h2)

theorem dbUpsertPreserves (s : CleanSignal) (store : List TradeRow)
    (hd : (datesOf store).Nodup) (he : (emailsOf store).Nodup) :
    (datesOf (match Database.upsertToTradeSignals s store with
      | .ok st2 => st2
      | .error _ => store)).Nodup ∧
    (emailsOf (match Database.upsertToTradeSignals s store with
      | .ok st2 => st2
      | .error _ => store)).Nodup := by
  unfold Database.upsertToTradeSignals
  by_cases h1 : (store.any fun r => r.signalDate = s.SignalDate) = true
  · simp only [h1, if_true]
    exact ⟨hd, he⟩
  · rw [Bool.not_eq_true] at h1
    simp only [h1]
    by_cases h2 : (store.any fun r => r.emailId = s.EmailID) = true
    · simp only [h2, if_true, Bool.false_eq_true, if_false]
      exact ⟨hd, he⟩
    · rw [Bool.not_eq_true] at h2
      simp only [h2, Bool.false_eq_true, if_false]
      constructor
      · have : datesOf (store ++ [rowOfSignal s]) =
            datesOf store ++ [s.SignalDate] := by
          simp [datesOf, rowOfSignal]
        rw [this]
        exact nodupAppendSingle hd (notMemDatesOf h1)
      · have : emailsOf (store ++ [rowOfSignal s]) =
            emailsOf store ++ [s.EmailID] := by
          simp [emailsOf, rowOfSignal]
        rw [this]
        exact nodupAppendSingle he (notMemEmailsOf h2)

theorem mainPromoteInv (sigs : List CleanSignal) :
    ∀ store : List TradeRow,
      (datesOf store).Nodup → (emailsOf store).Nodup →
      (datesOf (Main.promoteAll sigs store)).Nodup ∧
      (emailsOf (Main.promoteAll sigs store)).Nodup := by
  induction sigs with
  | nil => exact fun store hd he => ⟨hd, he⟩
  | cons s rest ih =>
    intro store hd he
    obtain ⟨hd2, he2⟩ := mainUpsertPreserves s store hd he
    simpa [Main.promoteAll] using ih _ hd2 he2

theorem dbPromoteInv (sigs : List CleanSignal) :
    ∀ store : List TradeRow,
      (datesOf store).Nodup → (emailsOf store).Nodup →
      (datesOf (Database.promoteAll sigs store)).Nodup ∧
      (emailsOf (Database.promoteAll sigs store)).Nodup := by
  induction sigs with
  | nil => exact fun store hd he => ⟨hd, he⟩
  | cons s rest ih =>
    intro store hd he
    obtain ⟨hd2, he2⟩ := dbUpsertPreserves s store hd he
    simpa [Database.promoteAll] using ih _ hd2 he2

/-- Claim C1: promoting any list of clean signals into an empty
`trade_signals` store — with either variant of `upsertToTradeSignals` —
yields a store whose `signal_date` values are pairwise distinct: the
date-lookup-then-skip step never lets a second row claim an occupied
date. -/
theorem C1_signal_date_uniqueness :
    ∀ sigs : List CleanSignal,
      (datesOf (Main.promoteAll sigs [])).Nodup ∧
      (datesOf (Database.promoteAll sigs [])).Nodup := by
  intro sigs
  exact ⟨(mainPromoteInv sigs [] (by simp [datesOf]) (by simp [emailsOf])).1,
    (dbPromoteInv sigs [] (by simp [datesOf]) (by simp [emailsOf])).1⟩

/-!  Claim C3: one staging row per attempted candidate. -/

/-- The staging rows carrying a given `email_id`. -/
def rowsFor (id : String) (store : List StagingRow) : List StagingRow :=
  store.filter (fun r => r.emailId = id)

theorem filterMapUpdate (email : EmailSignal) (sig : TradingSignal)
    (cleaned : List Char) (store : List StagingRow) :
    rowsFor email.ID (store.map (fun r =>
      if r.emailId = email.ID then Database.stagedRow email sig cleaned
      else r)) =
      List.replicate (rowsFor email.ID store).length
        (Database.stagedRow email sig cleaned) := by
  simp only [rowsFor]
  induction store with
  | nil => simp
  | cons r rest ih =>
    by_cases hr : r.emailId = email.ID
    · simp only [List.map_cons, if_pos hr]
      rw [List.filter_cons, List.filter_cons]
      have h1 : (decide ((Database.stagedRow email sig cleaned).emailId =
          email.ID)) = true := by
        simp [Database.stagedRow]
      have h2 : (decide (r.emailId = email.ID)) = true := by simp [hr]
      rw [h1, h2]
      simp only [if_true]
      rw [ih, List.length_cons, List.replicate_succ]
    · simp only [List.map_cons, if_neg hr]
      rw [List.filter_cons, List.filter_cons]
      have h2 : (decide (r.emailId = email.ID)) = false := by simp [hr]
      rw [h2]
      simpa using ih

theorem rowsForSave (email : EmailSignal) (sig : TradingSignal)
    (cleaned : List Char) (store : List StagingRow)
    (h : (rowsFor email.ID store).length ≤ 1) :
    rowsFor email.ID
      (Database.saveToParseBuyStopTarget email sig cleaned store) =
      [Database.stagedRow email sig cleaned] := by
  simp only [Database.saveToParseBuyStopTarget]
  by_cases hany : (store.any fun r => r.emailId = email.ID) = true
  · simp only [hany, if_true]
    rw [filterMapUpdate]
    obtain ⟨r0, hr0, hr0e⟩ : ∃ r ∈ store, r.emailId = email.ID := by
      simpa using List.any_eq_true.mp hany
    have hr0f : r0 ∈ rowsFor email.ID store := by
      simp [rowsFor, List.mem_filter, hr0, hr0e]
    have hlen1 : (rowsFor email.ID store).length = 1 := by
      have hpos : 0 < (rowsFor email.ID store).length :=
        List.length_pos.mpr (List.ne_nil_of_mem hr0f)
      omega
    rw [hlen1]
    simp
  · rw [Bool.not_eq_true] at hany
    simp only [hany, Bool.false_eq_true, if_false]
    simp only [rowsFor, List.filter_append]
    have hnone : store.filter (fun r => r.emailId = email.ID) = [] := by
      rw [List.filter_eq_nil_iff]
      intro r hr
      have := List.any_eq_false.mp hany r hr
      simpa using this
    rw [hnone]
    simp [Database.stagedRow]

/-- Claim C3 (amended): when extraction finds no valid signal, the pipeline
still leaves exactly one staging row for the message id; its ticker is the
empty string and its three prices are 0 — bound, non-NULL values (the Go
zero values of the empty `TradingSignal`), not SQL NULLs. -/
theorem C3_one_staging_row_per_candidate :
    ∀ (sanitize : List Char → List Char) (email : EmailSignal)
      (store store2 : List StagingRow),
      (rowsFor email.ID store).length ≤ 1 →
      (Parser.extractTradingSignalWithText sanitize email).1 = none →
      Parser.parseSignalFromEmail sanitize none email store = .ok store2 →
      rowsFor email.ID store2 =
        [{ emailId := email.ID
           ticker := some []
           signalDate := some (email.Date.unix * 1000)
           entryDate := some (email.Date.add24Hours.unix * 1000)
           buyPrice := some 0
           stopPrice := some 0
           targetPrice := some 0
           rawHtml := some (Parser.extractTradingSignalWithText sanitize
             email).2.1
           parsedText := some [] }] := by
  intro san email store store2 hlen hfail hok
  simp only [Parser.parseSignalFromEmail, parserExtractErrNone, hfail,
    Option.getD_none, Except.ok.injEq] at hok
  rw [← hok]
  rw [rowsForSave email (Parser.emptySignal email) _ store hlen]
  simp [Database.stagedRow, Parser.emptySignal]

/-- Witness for C3: the concrete candidate `buy stop target` (keywords but
no ticker or prices) fails validation, and the staging store afterwards
holds exactly its one empty-but-non-NULL row. -/
theorem C3_one_staging_row_per_candidate_witness :
    rowsFor "m2" [⟨"m2", some [], some 1704844800000, some 1704931200000,
      some 0, some 0, some 0, some "buy stop target".data, some []⟩] =
      [{ emailId := "m2"
         ticker := some []
         signalDate := some ((⟨1704844800, 0⟩ : GoTime).unix * 1000)
         entryDate :=
           some ((⟨1704844800, 0⟩ : GoTime).add24Hours.unix * 1000)
         buyPrice := some 0
         stopPrice := some 0
         targetPrice := some 0
         rawHtml := some (Parser.extractTradingSignalWithText id
           ⟨"m2", "t2", "s", ⟨1704844800, 0⟩, "buy stop target".data⟩).2.1
         parsedText := some [] }] :=
  C3_one_staging_row_per_candidate id
    ⟨"m2", "t2", "s", ⟨1704844800, 0⟩, "buy stop target".data⟩ []
    [⟨"m2", some [], some 1704844800000, some 1704931200000, some 0, some 0,
      some 0, some "buy stop target".data, some []⟩]
    (by decide) (by rfl) (by rfl)

/-- Claim C3 counterexample: the staged row of a failed extraction holds
`''` and `0` (bound values), not NULLs — `some` fields, never `none`. -/
theorem C3_fields_not_null_counterexample :
    Parser.parseSignalFromEmail id none
        ⟨"m2", "t2", "s", ⟨1704844800, 0⟩, "buy stop target".data⟩ [] =
      .ok [⟨"m2", some [], some 1704844800000, some 1704931200000, some 0,
        some 0, some 0, some "buy stop target".data, some []⟩] ∧
    (some ([] : List Char) ≠ (none : Option (List Char))) ∧
    (some (0 : ℚ) ≠ (none : Option ℚ)) :=
  ⟨by rfl, by decide, by decide⟩

/-!  Claim C8: which body the part-tree walks select. -/

mutual

/-- The body data of the `text/plain` parts carrying data, in depth-first
(node before children) order — the order in which the walks visit them. -/
def plainDatas (p : MessagePart) : List (List Char) :=
  match p with
  | .mk mt bd parts =>
    (if mt = "text/plain" then
      match bd with
      | some d => if d = [] then [] else [d]
      | none => []
    else []) ++ plainDatasList parts

/-- Depth-first plain-part data of a part list. -/
def plainDatasList : List MessagePart → List (List Char)
  | [] => []
  | q :: qs => plainDatas q ++ plainDatasList qs

end

mutual

/-- The body data of the `text/html` parts carrying data, depth-first. -/
def htmlDatas (p : MessagePart) : List (List Char) :=
  match p with
  | .mk mt bd parts =>
    (if mt = "text/html" then
      match bd with
      | some d => if d = [] then [] else [d]
      | none => []
    else []) ++ htmlDatasList parts

/-- Depth-first HTML-part data of a part list. -/
def htmlDatasList : List MessagePart → List (List Char)
  | [] => []
  | q :: qs => htmlDatas q ++ htmlDatasList qs

end

/-- Decode a list of part bodies, dropping failures. -/
def decList (l : List (List Char)) : List (List Nat) :=
  l.filterMap decodeBase64URL

/-- The content selected by the landing walk, as a function of the decoded
plain parts, the decoded HTML parts, and the incoming accumulator: the LAST
plain part wins; with no plain part, a nonempty accumulator is kept;
otherwise the FIRST HTML part is used. -/
def landingSelect (P H : List (List Nat)) (c0 : List Nat) : List Nat :=
  P.getLast?.getD (if c0 = [] then H.head?.getD c0 else c0)

/-- The content selected by the full-record walk: the LAST part wins
unconditionally. -/
def fullSelect (L : List (List Nat)) (x0 : List Nat) : List Nat :=
  L.getLast?.getD x0

theorem decode_ne_nil {d : List Char} {bs : List Nat} (hd : d ≠ [])
    (h : decodeBase64URL d = some bs) : bs ≠ [] := by
  match d with
  | [] => exact absurd rfl hd
  | [c1] => simp [decodeBase64URL] at h
  | [c1, c2] => simp [decodeBase64URL] at h
  | [c1, c2, c3] => simp [decodeBase64URL] at h
  | c1 :: c2 :: c3 :: c4 :: rest =>
    simp only [decodeBase64URL] at h
    repeat' split at h
    all_goals simp_all
    all_goals (rw [← h]; simp)

mutual

theorem mem_plainDatas_ne_nil (p : MessagePart) :
    ∀ d ∈ plainDatas p, d ≠ [] := by
  cases p with
  | mk mt bd parts =>
    intro d hd
    simp only [plainDatas, List.mem_append] at hd
    cases hd with
    | inl h1 =>
      split at h1
      · cases bd with
        | some dd =>
          simp only at h1
          split at h1
          · simp at h1
          · simp only [List.mem_singleton] at h1
            subst h1
            assumption
        | none => simp at h1
      · simp at h1
    | inr h2 => exact mem_plainDatasList_ne_nil parts d h2

theorem mem_plainDatasList_ne_nil (ps : List MessagePart) :
    ∀ d ∈ plainDatasList ps, d ≠ [] := by
  match ps with
  | [] => intro d hd; simp [plainDatasList] at hd
  | q :: qs =>
    intro d hd
    simp only [plainDatasList, List.mem_append] at hd
    cases hd with
    | inl h1 => exact mem_plainDatas_ne_nil q d h1
    | inr h2 => exact mem_plainDatasList_ne_nil qs d h2

end

mutual

theorem mem_htmlDatas_ne_nil (p : MessagePart) :
    ∀ d ∈ htmlDatas p, d ≠ [] := by
  cases p with
  | mk mt bd parts =>
    intro d hd
    simp only [htmlDatas, List.mem_append] at hd
    cases hd with
    | inl h1 =>
      split at h1
      · cases bd with
        | some dd =>
          simp only at h1
          split at h1
          · simp at h1
          · simp only [List.mem_singleton] at h1
            subst h1
            assumption
        | none => simp at h1
      · simp at h1
    | inr h2 => exact mem_htmlDatasList_ne_nil parts d h2

theorem mem_htmlDatasList_ne_nil (ps : List MessagePart) :
    ∀ d ∈ htmlDatasList ps, d ≠ [] := by
  match ps with
  | [] => intro d hd; simp [htmlDatasList] at hd
  | q :: qs =>
    intro d hd
    simp only [htmlDatasList, List.mem_append] at hd
    cases hd with
    | inl h1 => exact mem_htmlDatas_ne_nil q d h1
    | inr h2 => exact mem_htmlDatasList_ne_nil qs d h2

end

theorem mem_decList_ne_nil {l : List (List Char)}
    (hl : ∀ d ∈ l, d ≠ []) : ∀ x ∈ decList l, x ≠ [] := by
  intro x hx
  obtain ⟨d, hd, hdec⟩ := List.mem_filterMap.1 hx
  exact decode_ne_nil (hl d hd) hdec

theorem getLast?_eq_some_mem {l : List (List Nat)} {x : List Nat}
    (h : l.getLast? = some x) : x ∈ l :=
  List.mem_of_mem_getLast? h

theorem landingSelect_append (A B H1 H2 : List (List Nat)) (c0 : List Nat)
    (hA : ∀ x ∈ A, x ≠ []) (hH1 : ∀ x ∈ H1, x ≠ []) :
    landingSelect (A ++ B) (H1 ++ H2) c0 =
      landingSelect B H2 (landingSelect A H1 c0) := by
  unfold landingSelect
  cases hB : B.getLast? with
  | some x =>
    have hBne : B ≠ [] := by
      intro hnil
      rw [hnil] at hB
      simp at hB
    rw [List.getLast?_append_of_ne_nil A hBne, hB]
    rfl
  | none =>
    have hBnil : B = [] := List.getLast?_eq_none_iff.mp hB
    subst hBnil
    simp only [List.append_nil, hB, Option.getD_none]
    cases hA2 : A.getLast? with
    | some y =>
      have hy : y ≠ [] := hA y (getLast?_eq_some_mem hA2)
      simp [hy]
    | none =>
      have hAnil : A = [] := List.getLast?_eq_none_iff.mp hA2
      subst hAnil
      simp only [List.nil_append, List.getLast?_nil, Option.getD_none]
      by_cases hc : c0 = []
      · subst hc
        simp only [if_pos rfl]
        rw [List.head?_append]
        cases hH : H1.head? with
        | some h1 =>
          have hh1 : h1 ≠ [] := hH1 h1 (List.mem_of_mem_head? hH)
          simp [hH, hh1]
        | none =>
          simp [hH]
      · simp [hc]

theorem fullSelect_append (A B : List (List Nat)) (x0 : List Nat) :
    fullSelect (A ++ B) x0 = fullSelect B (fullSelect A x0) := by
  unfold fullSelect
  cases hB : B.getLast? with
  | some x =>
    have hBne : B ≠ [] := by
      intro hnil
      rw [hnil] at hB
      simp at hB
    rw [List.getLast?_append_of_ne_nil A hBne, hB]
    rfl
  | none =>
    have hBnil : B = [] := List.getLast?_eq_none_iff.mp hB
    subst hBnil
    simp

theorem landingSelect_nil_of_ne {H : List (List Nat)} {c0 : List Nat}
    (hc : c0 ≠ []) : landingSelect [] H c0 = c0 := by
  simp [landingSelect, hc]

theorem landingSelect_nil_nil (c0 : List Nat) :
    landingSelect [] [] c0 = c0 := by
  by_cases hc : c0 = [] <;> simp [landingSelect, hc]


theorem decList_append (l1 l2 : List (List Char)) :
    decList (l1 ++ l2) = decList l1 ++ decList l2 :=
  List.filterMap_append l1 l2 decodeBase64URL

mutual

theorem landingSpec (p : MessagePart) :
    ∀ c0 c, processPayloadLanding p c0 = .ok c →
      c = landingSelect (decList (plainDatas p)) (decList (htmlDatas p))
        c0 := by
  cases p with
  | mk mt bd parts =>
    intro c0 c h
    simp only [processPayloadLanding] at h
    split at h
    · simp at h
    · rename_i c1 heq
      have hc := landingSpecList parts c1 c h
      rw [hc]
      simp only [plainDatas, htmlDatas, decList_append]
      rw [landingSelect_append]
      · congr 1
        split at heq
        · rename_i hmt
          subst hmt
          split at heq
          · rename_i d hbd
            split at heq
            · rename_i hdnil
              simp only [Except.ok.injEq] at heq
              subst heq
              simp [hdnil, decList, landingSelect_nil_nil]
            · rename_i hdnil
              split at heq
              · rename_i bytes hdec
                simp only [Except.ok.injEq] at heq
                subst heq
                simp [hdnil, decList, hdec, landingSelect]
              · simp at heq
          · simp only [Except.ok.injEq] at heq
            subst heq
            simp [decList, landingSelect_nil_nil]
        · rename_i hmt
          split at heq
          · rename_i hcond
            obtain ⟨hhtml, hc0⟩ := hcond
            subst hhtml
            split at heq
            · rename_i d hbd
              split at heq
              · rename_i hdnil
                simp only [Except.ok.injEq] at heq
                subst heq
                simp [hmt, hdnil, decList, landingSelect_nil_nil]
              · rename_i hdnil
                split at heq
                · rename_i bytes hdec
                  simp only [Except.ok.injEq] at heq
                  subst heq
                  simp [hmt, hc0, hdnil, decList, hdec, landingSelect]
                · simp at heq
            · simp only [Except.ok.injEq] at heq
              subst heq
              simp [hmt, decList, landingSelect_nil_nil]
          · rename_i hcond
            simp only [Except.ok.injEq] at heq
            subst heq
            simp only [if_neg hmt]
            by_cases hhtml : mt = "text/html"
            · have hc0 : c0 ≠ [] := fun hc0nil => hcond ⟨hhtml, hc0nil⟩
              simp [decList, landingSelect_nil_of_ne hc0]
            · simp [hhtml, decList, landingSelect_nil_nil]
      · apply mem_decList_ne_nil
        intro d hd
        apply mem_plainDatas_ne_nil (MessagePart.mk mt bd parts) d
        simp only [plainDatas, List.mem_append]
        exact Or.inl hd
      · apply mem_decList_ne_nil
        intro d hd
        apply mem_htmlDatas_ne_nil (MessagePart.mk mt bd parts) d
        simp only [htmlDatas, List.mem_append]
        exact Or.inl hd

theorem landingSpecList (ps : List MessagePart) :
    ∀ c0 c, processPayloadLandingList ps c0 = .ok c →
      c = landingSelect (decList (plainDatasList ps))
        (decList (htmlDatasList ps)) c0 := by
  match ps with
  | [] =>
    intro c0 c h
    simp only [processPayloadLandingList, Except.ok.injEq] at h
    subst h
    simp [plainDatasList, htmlDatasList, decList, landingSelect_nil_nil]
  | q :: qs =>
    intro c0 c h
    simp only [processPayloadLandingList] at h
    split at h
    · simp at h
    · rename_i c2 heq
      have h1 := landingSpec q c0 c2 heq
      have h2 := landingSpecList qs c2 c h
      rw [h2, h1]
      simp only [plainDatasList, htmlDatasList, decList_append]
      rw [landingSelect_append]
      · apply mem_decList_ne_nil
        exact mem_plainDatas_ne_nil q
      · apply mem_decList_ne_nil
        exact mem_htmlDatas_ne_nil q

end

mutual

theorem fullSpec (p : MessagePart) :
    ∀ acc a b, processPayloadFull p acc = .ok (a, b) →
      a = fullSelect (decList (plainDatas p)) acc.1 ∧
      b = fullSelect (decList (htmlDatas p)) acc.2 := by
  cases p with
  | mk mt bd parts =>
    intro acc a b h
    simp only [processPayloadFull] at h
    split at h
    · simp at h
    · rename_i a1 heq
      obtain ⟨h1, h2⟩ := fullSpecList parts a1 a b h
      rw [h1, h2]
      simp only [plainDatas, htmlDatas, decList_append]
      rw [fullSelect_append, fullSelect_append]
      constructor
      · congr 1
        split at heq
        · rename_i hmt
          subst hmt
          split at heq
          · rename_i d hbd
            split at heq
            · rename_i hdnil
              simp only [Except.ok.injEq] at heq
              subst heq
              simp [hdnil, decList, fullSelect]
            · rename_i hdnil
              split at heq
              · rename_i bytes hdec
                simp only [Except.ok.injEq] at heq
                subst heq
                simp [hdnil, decList, hdec, fullSelect]
              · simp at heq
          · simp only [Except.ok.injEq] at heq
            subst heq
            simp [decList, fullSelect]
        · rename_i hmt
          split at heq
          · rename_i hhtml
            subst hhtml
            split at heq
            · rename_i d hbd
              split at heq
              · rename_i hdnil
                simp only [Except.ok.injEq] at heq
                subst heq
                simp [hmt, hdnil, decList, fullSelect]
              · rename_i hdnil
                split at heq
                · rename_i bytes hdec
                  simp only [Except.ok.injEq] at heq
                  subst heq
                  simp [hmt, decList, fullSelect]
                · simp at heq
            · simp only [Except.ok.injEq] at heq
              subst heq
              simp [hmt, decList, fullSelect]
          · rename_i hhtml
            simp only [Except.ok.injEq] at heq
            subst heq
            simp [hmt, hhtml, decList, fullSelect]
      · congr 1
        split at heq
        · rename_i hmt
          subst hmt
          split at heq
          · rename_i d hbd
            split at heq
            · rename_i hdnil
              simp only [Except.ok.injEq] at heq
              subst heq
              simp [hdnil, decList, fullSelect]
            · rename_i hdnil
              split at heq
              · rename_i bytes hdec
                simp only [Except.ok.injEq] at heq
                subst heq
                simp [decList, fullSelect]
              · simp at heq
          · simp only [Except.ok.injEq] at heq
            subst heq
            simp [decList, fullSelect]
        · rename_i hmt
          split at heq
          · rename_i hhtml
            subst hhtml
            split at heq
            · rename_i d hbd
              split at heq
              · rename_i hdnil
                simp only [Except.ok.injEq] at heq
                subst heq
                simp [hmt, hdnil, decList, fullSelect]
              · rename_i hdnil
                split at heq
                · rename_i bytes hdec
                  simp only [Except.ok.injEq] at heq
                  subst heq
                  simp [hmt, hdnil, decList, hdec, fullSelect]
                · simp at heq
            · simp only [Except.ok.injEq] at heq
              subst heq
              simp [hmt, decList, fullSelect]
          · rename_i hhtml
            simp only [Except.ok.injEq] at heq
            subst heq
            simp [hmt, hhtml, decList, fullSelect]

theorem fullSpecList (ps : List MessagePart) :
    ∀ acc a b, processPayloadFullList ps acc = .ok (a, b) →
      a = fullSelect (decList (plainDatasList ps)) acc.1 ∧
      b = fullSelect (decList (htmlDatasList ps)) acc.2 := by
  match ps with
  | [] =>
    intro acc a b h
    simp only [processPayloadFullList, Except.ok.injEq] at h
    rw [h]
    simp [plainDatasList, htmlDatasList, decList, fullSelect]
  | q :: qs =>
    intro acc a b h
    simp only [processPayloadFullList] at h
    split at h
    · simp at h
    · rename_i a2 heq
      obtain ⟨hq1, hq2⟩ := fullSpec q acc a2.1 a2.2 (by simpa using heq)
      obtain ⟨h1, h2⟩ := fullSpecList qs a2 a b h
      rw [h1, h2, hq1, hq2]
      simp only [plainDatasList, htmlDatasList, decList_append]
      rw [fullSelect_append, fullSelect_append]
      exact ⟨rfl, rfl⟩

end

/-- Claim C8 (amended): both body-decoding walks prefer plain text over
HTML, but among several plain-text parts the LAST one of the depth-first
walk wins — each decoded plain part overwrites the accumulator, so the
claim's "first plain-text part" is wrong.  The landing walk falls back to
the FIRST HTML part and only when no plain part exists anywhere (and the
accumulator was empty); the full-record walk tracks the LAST HTML part
independently of the plain text. -/
theorem C8_body_decoding_walks :
    (∀ (p : MessagePart) (c0 c : List Nat),
      processPayloadLanding p c0 = .ok c →
      c = landingSelect (decList (plainDatas p)) (decList (htmlDatas p))
        c0) ∧
    (∀ (p : MessagePart) (acc : List Nat × List Nat) (a b : List Nat),
      processPayloadFull p acc = .ok (a, b) →
      a = fullSelect (decList (plainDatas p)) acc.1 ∧
      b = fullSelect (decList (htmlDatas p)) acc.2) :=
  ⟨landingSpec, fullSpec⟩

/-- Witness for C8: on a tree holding an HTML part (decoding to "Hello")
followed by a plain part (decoding to "B", byte 66), the landing walk
returns the plain part's bytes, matching the selector. -/
theorem C8_body_decoding_walks_witness :
    ([66] : List Nat) = landingSelect
      (decList (plainDatas (MessagePart.mk "multipart/alternative" none
        [MessagePart.mk "text/html" (some "SGVsbG8=".data) [],
         MessagePart.mk "text/plain" (some "Qg==".data) []])))
      (decList (htmlDatas (MessagePart.mk "multipart/alternative" none
        [MessagePart.mk "text/html" (some "SGVsbG8=".data) [],
         MessagePart.mk "text/plain" (some "Qg==".data) []])))
      [] :=
  C8_body_decoding_walks.1
    (MessagePart.mk "multipart/alternative" none
      [MessagePart.mk "text/html" (some "SGVsbG8=".data) [],
       MessagePart.mk "text/plain" (some "Qg==".data) []]) [] [66] (by rfl)

/-- Claim C8 counterexample: with two plain parts decoding to "A" (byte 65)
and then "B" (byte 66), the claim predicts the first ("A") is selected, but
the landing walk returns the last ("B"). -/
theorem C8_first_plain_counterexample :
    processPayloadLanding (MessagePart.mk "multipart/alternative" none
      [MessagePart.mk "text/plain" (some "QQ==".data) [],
       MessagePart.mk "text/plain" (some "Qg==".data) []]) [] =
      .ok [66] ∧
    ¬ processPayloadLanding (MessagePart.mk "multipart/alternative" none
      [MessagePart.mk "text/plain" (some "QQ==".data) [],
       MessagePart.mk "text/plain" (some "Qg==".data) []]) [] =
      .ok [65] := by
  constructor
  · rfl
  · intro hcontra
    have h66 : processPayloadLanding (MessagePart.mk "multipart/alternative"
        none [MessagePart.mk "text/plain" (some "QQ==".data) [],
        MessagePart.mk "text/plain" (some "Qg==".data) []]) [] =
        .ok [66] := by rfl
    rw [h66] at hcontra
    simp at hcontra
